import Mathlib

/-!
Verification of the behavior_machine execution engine against its
specification.  The repository's core (the `State` node abstraction, the
`Machine` scheduler and the `SequentialState` composite) is embedded
shallowly: statuses are an enumeration, flow values are optional strings,
behavior bodies are functions from the flow-in value to an execution
outcome, and the concurrent tick loop is modelled as explicit small steps
(`Machine.update` for one scheduler tick, `Machine.finishCurr` for the
completion of the current node's execution thread).  Thread liveness is
modelled as a Boolean ownership flag that is cleared exactly when the
owning thread has been joined.
-/

namespace BehaviorMachine

/-- Modelled from the spec: the closed status enumeration `StateStatus`
(`behavior_machine.core`, not under `src/`): `SUCCESS`, `FAILED`,
`EXCEPTION` and `INTERRUPTED` are terminal, `NOT_RUNNING` is the
initial/reset state, `RUNNING` is transient. -/
inductive StateStatus where
  | NOT_RUNNING
  | RUNNING
  | SUCCESS
  | FAILED
  | INTERRUPTED
  | EXCEPTION
deriving DecidableEq, Repr

/-- Modelled from the spec: the `Board` is an opaque shared read/write bag
with no behavior of its own. -/
structure Board where
  entries : List (String × String) := []

/-- Outcome of one run of a node's execution body: either a normal return
carrying an optional explicit status and the flow-out value the body set
(`none` when the body set none), or a raised fault carried as its message. -/
inductive ExecOutcome where
  | ret (st : Option StateStatus) (fo : Option String)
  | fault (e : String)

/-- Modelled from the spec: a body that returns normally without an explicit
status is treated as `SUCCESS`. -/
def statusOfReturn : Option StateStatus → StateStatus
  | none => .SUCCESS
  | some s => s

/-- Read-only snapshot of a node handed to transition predicates (the
predicate receives the source node and the board). -/
structure NodeSnap where
  name : String
  status : StateStatus
  flow_in : Option String
  flow_out : Option String

/-- Outcome of evaluating one transition predicate: a Boolean, or a raised
fault (predicates may raise; that is routed to the exception path). -/
inductive PredOutcome where
  | ok (b : Bool)
  | fault (e : String)

/-- Modelled from the spec: a transition is a predicate over (source node,
board) plus a target node reference; targets are identified by name. -/
structure Transition where
  pred : NodeSnap → Board → PredOutcome
  target : String

/-- Modelled from the spec: a `State` node — identity, status, transition
table, flow-in/flow-out slots, an execution-thread liveness flag, and the
captured fault with the qualified name of the node that raised it. The
behavior body `execute` is abstracted as a function of the flow-in value. -/
structure Node where
  name : String
  execute : Option String → ExecOutcome
  transitions : List Transition := []
  status : StateStatus := .NOT_RUNNING
  flow_in : Option String := none
  flow_out : Option String := none
  threadAlive : Bool := false
  internalException : Option String := none
  exceptionRaisedStateName : String := ""

/-- Snapshot of a node's predicate-visible fields. -/
def Node.snap (n : Node) : NodeSnap :=
  ⟨n.name, n.status, n.flow_in, n.flow_out⟩

/-- Modelled from the spec: `start(board, flow_in)` resets status to
`RUNNING`, sets flow-in, and spawns the execution thread (liveness flag on);
flow-out starts unset for the new activation. -/
def Node.start (n : Node) (flow : Option String) : Node :=
  { n with status := .RUNNING, flow_in := flow, flow_out := none,
           threadAlive := true }

/-- Completion of a node's execution thread: the body runs on the flow-in
value; on normal return the node takes the returned status (unset meaning
`SUCCESS`) and flow-out; on a raised fault the node becomes `EXCEPTION`,
records the fault unchanged and records its own name as the origin. In both
cases the thread exits (liveness flag off). -/
def Node.finishExec (n : Node) : Node :=
  match n.execute n.flow_in with
  | .ret st fo =>
      { n with status := statusOfReturn st, flow_out := fo, threadAlive := false }
  | .fault e =>
      { n with status := .EXCEPTION, internalException := some e,
               exceptionRaisedStateName := n.name, threadAlive := false }

/-- Modelled from the spec: `interrupt()` on a `RUNNING` node cancels and
fully joins the execution thread and sets status `INTERRUPTED`; it is a
no-op on a node that is not running. -/
def Node.interrupt (n : Node) : Node :=
  if n.status = .RUNNING then
    { n with status := .INTERRUPTED, threadAlive := false }
  else n

/-- Result of one transition-table evaluation: no predicate held, the first
holding predicate's target (with the flow-out to hand over), or a fault
raised by a predicate. -/
inductive TickOutcome where
  | hold
  | goto (target : String) (flow : Option String)
  | fault (e : String)

/-- Transitions are evaluated in insertion order; the first predicate that
holds wins; a predicate that raises aborts evaluation with the fault. -/
def evalTransitions (s : NodeSnap) (b : Board) : List Transition → TickOutcome
  | [] => .hold
  | t :: ts =>
      match t.pred s b with
      | .fault e => .fault e
      | .ok true => .goto t.target s.flow_out
      | .ok false => evalTransitions s b ts

/-- Modelled from the spec and the repository's tests: `State.tick`
evaluates the node's transition table on every tick, regardless of whether
the node is still `RUNNING` (the preemption test
`test_interruption_in_machines_with_sequential_state` pins that a predicate
holding while the source is still running redirects away from it). -/
def Node.tick (n : Node) (b : Board) : TickOutcome :=
  evalTransitions n.snap b n.transitions

/-- Name of the node considered current after `tick`: the target when a
transition fired, the node itself otherwise. -/
def Node.tickNext (n : Node) (b : Board) : String :=
  match n.tick b with
  | .goto t _ => t
  | _ => n.name

/-- Convenience predicate of `add_transition_on_success`. -/
def onSuccessPred : NodeSnap → Board → PredOutcome :=
  fun s _ => .ok (decide (s.status = .SUCCESS))

/-- Convenience predicate of `add_transition_on_failed`. -/
def onFailedPred : NodeSnap → Board → PredOutcome :=
  fun s _ => .ok (decide (s.status = .FAILED))

/-- Modelled from the spec: the on-complete predicate holds exactly on the
clean terminal outcomes `SUCCESS` or `FAILED`, excluding `EXCEPTION` and
`INTERRUPTED`. -/
def onCompletePred : NodeSnap → Board → PredOutcome :=
  fun s _ => .ok (decide (s.status = .SUCCESS) || decide (s.status = .FAILED))

/-- Attach a general transition at the end of the table. -/
def Node.add_transition (n : Node) (p : NodeSnap → Board → PredOutcome)
    (target : String) : Node :=
  { n with transitions := n.transitions ++ [⟨p, target⟩] }

/-- Attach an on-success transition. -/
def Node.add_transition_on_success (n : Node) (target : String) : Node :=
  n.add_transition onSuccessPred target

/-- Attach an on-failed transition. -/
def Node.add_transition_on_failed (n : Node) (target : String) : Node :=
  n.add_transition onFailedPred target

/-- Attach an on-complete transition. -/
def Node.add_transition_on_complete (n : Node) (target : String) : Node :=
  n.add_transition onCompletePred target

/-- Look a node up by name in a machine's node list. -/
def getNode (ns : List Node) (nm : String) : Option Node :=
  ns.find? (fun n => n.name == nm)

/-- Replace the node of the given name. -/
def setNode (ns : List Node) (n : Node) : List Node :=
  ns.map (fun m => if m.name == n.name then n else m)

/-- Qualified names compose by dot-concatenation: an enclosing container
prefixes its own name plus a dot. -/
def qualifyName (container child : String) : String :=
  container ++ "." ++ child

/-- Modelled from the spec: a `Machine` — a nestable node owning a graph of
nodes, a current-node pointer, a set of terminal node names
(`end_state_ids`), the captured fault and its origin's qualified name, and
its tick-loop thread's liveness flag. -/
structure Machine where
  name : String
  rootName : String
  nodes : List Node
  end_state_ids : List String := []
  currStateName : String := ""
  status : StateStatus := .NOT_RUNNING
  flow_in : Option String := none
  internalException : Option String := none
  exceptionRaisedStateName : String := ""
  threadAlive : Bool := false

/-- Modelled from the spec: `Machine.start` initializes the current node to
the configured root, starts it with the machine's own flow-in as the root's
flow-in, and spawns the tick loop. -/
def Machine.start (m : Machine) (flow : Option String) : Machine :=
  match getNode m.nodes m.rootName with
  | none => m
  | some root =>
      { m with status := .RUNNING, flow_in := flow, threadAlive := true,
               currStateName := m.rootName,
               nodes := setNode m.nodes (root.start flow) }

/-- Modelled from the spec: the machine's exception path — interrupt the
current node if still alive (draining it to `INTERRUPTED`), record the
fault unchanged and the origin path prefixed with this machine's name, set
own status `EXCEPTION`, and stop the tick loop without rethrowing. -/
def Machine.handleFault (m : Machine) (curr : Node) (e : String)
    (path : String) : Machine :=
  { m with nodes := setNode m.nodes curr.interrupt,
           status := .EXCEPTION,
           internalException := some e,
           exceptionRaisedStateName := qualifyName m.name path,
           threadAlive := false }

/-- One scheduler tick, modelled from the spec and pinned by the tests: if
the current node's status is `EXCEPTION`, take the exception path
(propagating the node's recorded fault and origin path); otherwise evaluate
its transition table — a raising predicate takes the exception path tagged
with the current node's name, a holding predicate interrupts the current
node if still running and starts the target with flow-in equal to the
source's flow-out, and otherwise the machine holds. -/
def Machine.update (m : Machine) (b : Board) : Machine :=
  match getNode m.nodes m.currStateName with
  | none => m
  | some curr =>
      if curr.status = .EXCEPTION then
        m.handleFault curr (curr.internalException.getD "")
          curr.exceptionRaisedStateName
      else
        match curr.tick b with
        | .fault e => m.handleFault curr e curr.name
        | .hold => m
        | .goto tgt flow =>
            let nodes1 := setNode m.nodes curr.interrupt
            match getNode nodes1 tgt with
            | none => m
            | some tn =>
                { m with nodes := setNode nodes1 (tn.start flow),
                         currStateName := tgt }

/-- Completion of the current node's execution thread (the thread's body
finishing is an event independent of the scheduler ticks). -/
def Machine.finishCurr (m : Machine) : Machine :=
  match getNode m.nodes m.currStateName with
  | none => m
  | some curr => { m with nodes := setNode m.nodes curr.finishExec }

/-- Modelled from the spec: `is_end()` holds iff the current node's name is
in the terminal-name set and its status is not `RUNNING`. -/
def Machine.is_end (m : Machine) : Bool :=
  match getNode m.nodes m.currStateName with
  | none => false
  | some curr =>
      decide (curr.name ∈ m.end_state_ids) && decide (curr.status ≠ .RUNNING)

/-- One synchronous child activation inside a sequential composite: start
the child with the handed-over flow and wait for its execution to finish. -/
def runChild (c : Node) (flow : Option String) : Node :=
  (c.start flow).finishExec

/-- Reset of a child at the top of a (re)run: status back to `NOT_RUNNING`. -/
def resetChild (c : Node) : Node :=
  { c with status := .NOT_RUNNING }

/-- Result of the sequential loop over a suffix of children: the final
child records, the composite's resulting status, the flow value accumulated
so far (the composite's flow-out), and the propagated fault with the origin
path recorded by the faulting child, if any. -/
structure SeqLoopResult where
  children : List Node
  status : StateStatus
  flow : Option String
  exc : Option (String × String)

/-- Modelled from the spec and pinned by the repository's tests
(`test_sequence_state_flow`): the sequential loop runs children one at a
time; on `SUCCESS` the accumulated flow becomes the child's flow-out and
the next child is started with it; on `FAILED` the loop stops immediately,
leaving later children untouched and the accumulated flow as it was before
the failed child ran; on `EXCEPTION` the loop stops carrying the child's
fault and recorded origin. -/
def seqExecLoop (flow : Option String) : List Node → SeqLoopResult
  | [] => ⟨[], .SUCCESS, flow, none⟩
  | c :: cs =>
      let c' := runChild c flow
      if c'.status = .SUCCESS then
        let r := seqExecLoop c'.flow_out cs
        ⟨c' :: r.children, r.status, r.flow, r.exc⟩
      else if c'.status = .FAILED then
        ⟨c' :: cs, .FAILED, flow, none⟩
      else if c'.status = .EXCEPTION then
        ⟨c' :: cs, .EXCEPTION, flow,
          some (c'.internalException.getD "", c'.exceptionRaisedStateName)⟩
      else
        ⟨c' :: cs, c'.status, flow, none⟩

/-- Modelled from the spec: a `SequentialState` — an ordered list of child
nodes, a cursor to the active child, and the same node-facing fields as a
leaf (status, flow slots, transition table, fault record, thread flag). -/
structure SeqState where
  name : String
  children : List Node
  transitions : List Transition := []
  currChildIdx : Option Nat := none
  status : StateStatus := .NOT_RUNNING
  flow_in : Option String := none
  flow_out : Option String := none
  internalException : Option String := none
  exceptionRaisedStateName : String := ""
  threadAlive : Bool := false

/-- Modelled from the spec: a full activation of the composite (start plus
wait): all children are reset to `NOT_RUNNING` first, then the sequential
loop runs from child 0 with the composite's flow-in; a propagated child
fault makes the composite `EXCEPTION` with the origin path prefixed by the
composite's own name. -/
def SeqState.execute (s : SeqState) (flow : Option String) : SeqState :=
  let r := seqExecLoop flow (s.children.map resetChild)
  match r.exc with
  | some (e, nm) =>
      { s with children := r.children, status := .EXCEPTION,
               flow_in := flow, flow_out := r.flow,
               internalException := some e,
               exceptionRaisedStateName := qualifyName s.name nm,
               threadAlive := false }
  | none =>
      { s with children := r.children, status := r.status,
               flow_in := flow, flow_out := r.flow,
               internalException := none, exceptionRaisedStateName := "",
               threadAlive := false }

/-- Partial activation of a composite used to model an interrupt arriving
mid-run: children before index `k` have run (each must have succeeded for
the run to reach `k`), child `k` has been started and is still running, and
later children are untouched. `none` when the run cannot reach child `k`. -/
def seqRunUpto (flow : Option String) : Nat → List Node → Option (List Node)
  | _, [] => none
  | 0, c :: cs => some ((c.start flow) :: cs)
  | k+1, c :: cs =>
      let c' := runChild c flow
      if c'.status = .SUCCESS then
        (seqRunUpto c'.flow_out k cs).map (fun l => c' :: l)
      else none

/-- The composite state observed while child `k` is the active child. -/
def SeqState.midRun (s : SeqState) (flow : Option String) (k : Nat) :
    Option SeqState :=
  (seqRunUpto flow k (s.children.map resetChild)).map (fun cs =>
    { s with children := cs, status := .RUNNING, flow_in := flow,
             currChildIdx := some k, threadAlive := true })

/-- Interrupt only the child at the cursor position. -/
def interruptChild : List Node → Nat → List Node
  | [], _ => []
  | c :: cs, 0 => c.interrupt :: cs
  | c :: cs, k+1 => c :: interruptChild cs k

/-- Modelled from the spec: `interrupt()` on a running composite interrupts
only the currently active child, then marks the composite `INTERRUPTED` and
joins its thread; it is a safe no-op when the composite is not running. -/
def SeqState.interrupt (s : SeqState) : SeqState :=
  if s.status = .RUNNING then
    let cs :=
      match s.currChildIdx with
      | none => s.children
      | some k => interruptChild s.children k
    { s with children := cs, status := .INTERRUPTED, threadAlive := false }
  else s

/-- Predicate-visible snapshot of a composite (it is ticked like a leaf). -/
def SeqState.snap (s : SeqState) : NodeSnap :=
  ⟨s.name, s.status, s.flow_in, s.flow_out⟩

/-- A composite is ticked exactly like a leaf: its transition table is
evaluated on its own snapshot. -/
def SeqState.tick (s : SeqState) (b : Board) : TickOutcome :=
  evalTransitions s.snap b s.transitions

/-- Name of the node considered current after ticking the composite: the
target when a transition fired, the composite itself otherwise. -/
def SeqState.tickNext (s : SeqState) (b : Board) : String :=
  match s.tick b with
  | .goto t _ => t
  | _ => s.name

/-- Modelled from the spec: the ownership tree of execution threads — every
node carries its status, whether its own execution (or tick-loop) thread is
alive, the cursor of its active child if any, and its children. Threads
form a tree mirroring the node hierarchy. -/
inductive NTree where
  | node (status : StateStatus) (threadAlive : Bool) (act : Option Nat)
      (children : List NTree)

/-- Status of the root of a thread-ownership tree. -/
def NTree.statusOf : NTree → StateStatus
  | .node st _ _ _ => st

mutual

/-- No thread in this subtree is alive. -/
def NTree.allDead : NTree → Bool
  | .node _ alive _ cs => !alive && allDeadList cs

/-- No thread in any of these subtrees is alive. -/
def allDeadList : List NTree → Bool
  | [] => true
  | c :: cs => c.allDead && allDeadList cs

end

mutual

/-- Live-thread well-formedness maintained by the engine: a node that is
not `RUNNING` owns no live thread anywhere below it (its thread was joined
and, one level at a time, so were its children's); a `RUNNING` node has
live threads at most along the active-child path. -/
def NTree.wfLive : NTree → Bool
  | .node st alive act cs =>
      if st = .RUNNING then
        match act with
        | none => allDeadList cs
        | some k => wfAt cs k
      else !alive && allDeadList cs

/-- Among these children, the one at the cursor is live-well-formed and all
others own no live threads. -/
def wfAt : List NTree → Nat → Bool
  | [], _ => true
  | c :: cs, 0 => c.wfLive && allDeadList cs
  | c :: cs, k+1 => c.allDead && wfAt cs k

end

mutual

/-- Modelled from the spec: interrupting a running node interrupts its
active child first (recursively, one level at a time — a parent never
reaches into grandchildren directly), then joins and clears its own thread
and becomes `INTERRUPTED`; a node that is not running is left untouched. -/
def NTree.interruptT : NTree → NTree
  | .node st alive act cs =>
      if st = .RUNNING then
        let cs' :=
          match act with
          | none => cs
          | some k => interruptNth cs k
        .node .INTERRUPTED false act cs'
      else .node st alive act cs

/-- Interrupt the child at the cursor position only. -/
def interruptNth : List NTree → Nat → List NTree
  | [], _ => []
  | c :: cs, 0 => c.interruptT :: cs
  | c :: cs, k+1 => c :: interruptNth cs k

end

/-- A captured fault together with the qualified origin path recorded for
it. -/
structure ExcInfo where
  exception : String
  path : String
deriving DecidableEq, Repr

/-- One level of exception propagation: an enclosing container keeps the
fault unchanged and prefixes its own name plus a dot to the origin path
(this is the step `Machine.handleFault` and `SeqState.execute` perform). -/
def propagateExc (containerName : String) (i : ExcInfo) : ExcInfo :=
  ⟨i.exception, qualifyName containerName i.path⟩

/-- Propagation of a captured fault through a whole chain of enclosing
containers, outermost first. -/
def propagateThrough (names : List String) (i : ExcInfo) : ExcInfo :=
  names.foldr propagateExc i

/-- The full dotted qualified path from the outermost container to a leaf. -/
def dottedPath : List String → String → String
  | [], leaf => leaf
  | n :: ns, leaf => n ++ "." ++ dottedPath ns leaf

/-! Helper lemmas about node lookup and replacement. -/

theorem getNode_eq_name {ns : List Node} {nm : String} {n : Node}
    (h : getNode ns nm = some n) : n.name = nm := by
  unfold getNode at h
  have h' := List.find?_some h
  simpa using h'

theorem getNode_setNode_self {ns : List Node} {nm : String} {n n' : Node}
    (h : getNode ns nm = some n) (hn : n'.name = nm) :
    getNode (setNode ns n') nm = some n' := by
  induction ns with
  | nil => simp [getNode] at h
  | cons a as ih =>
      by_cases ha : a.name = nm
      · simp [getNode, setNode, List.find?_cons, ha, hn]
      · have h' : getNode as nm = some n := by
          simpa [getNode, List.find?_cons, ha] using h
        have ih' := ih h'
        simpa [getNode, setNode, List.find?_cons, ha, hn] using ih'

theorem start_name (n : Node) (f : Option String) : (n.start f).name = n.name := by
  simp [Node.start]

theorem start_status (n : Node) (f : Option String) :
    (n.start f).status = .RUNNING := by
  simp [Node.start]

/-- C1: for every machine and transition graph, `is_end()` is true iff the
current node's name is in the machine's terminal-name set and that node's
status is not `RUNNING`; moreover, right after a scheduler tick whose
transition points the current-node pointer at a new node, `is_end()` is
false, because the newly started node is `RUNNING` until its own execution
finishes. -/
theorem machine_is_end_iff_terminal_and_finished (m : Machine) (b : Board)
    (curr tn : Node) (tgt : String) (flow : Option String)
    (hcur : getNode m.nodes m.currStateName = some curr)
    (hexc : curr.status ≠ .EXCEPTION)
    (htick : curr.tick b = .goto tgt flow)
    (htgt : getNode (setNode m.nodes curr.interrupt) tgt = some tn) :
    (m.is_end = true ↔ curr.name ∈ m.end_state_ids ∧ curr.status ≠ .RUNNING)
      ∧ (m.update b).is_end = false := by
  constructor
  · simp [Machine.is_end, hcur]
  · have htn : tn.name = tgt := getNode_eq_name htgt
    have hupd : m.update b =
        { m with nodes := setNode (setNode m.nodes curr.interrupt) (tn.start flow),
                 currStateName := tgt } := by
      simp [Machine.update, hcur, hexc, htick, htgt]
    rw [hupd]
    have hlook : getNode (setNode (setNode m.nodes curr.interrupt) (tn.start flow)) tgt
        = some (tn.start flow) :=
      getNode_setNode_self htgt (by simp [Node.start, htn])
    simp only [Machine.is_end]
    rw [hlook]
    simp [Node.start]

theorem getNode_setNode_other {ns : List Node} {nm : String} {n' : Node}
    (h : n'.name ≠ nm) : getNode (setNode ns n') nm = getNode ns nm := by
  induction ns with
  | nil => rfl
  | cons a as ih =>
      show getNode ((if a.name == n'.name then n' else a) :: setNode as n') nm
            = getNode (a :: as) nm
      by_cases ha : a.name = n'.name
      · have h1 : (n'.name == nm) = false := by simp [h]
        have h2 : (a.name == nm) = false := by simp [ha, h]
        simp only [getNode, List.find?_cons, ha, beq_self_eq_true, if_true, h1, h2]
        simpa [getNode] using ih
      · have ha' : (a.name == n'.name) = false := by simp [ha]
        by_cases hanm : a.name = nm
        · have hnn : ¬ nm = n'.name := by rw [← hanm]; exact ha
          simp [getNode, List.find?_cons, ha', hanm, hnn]
        · have h2 : (a.name == nm) = false := by simp [hanm]
          simp only [getNode, List.find?_cons, ha', if_false, Bool.false_eq_true,
            reduceIte, h2]
          simpa [getNode] using ih

/-! Concrete graphs mirroring the repository's tests, used as witnesses. -/

/-- A behavior body that immediately returns `SUCCESS` and sets no flow. -/
def dummyExec : Option String → ExecOutcome := fun _ => .ret (some .SUCCESS) none

def chainS1 : Node :=
  Node.add_transition_on_success { name := "s1", execute := dummyExec } "s2"

def chainS2 : Node :=
  Node.add_transition_on_success { name := "s2", execute := dummyExec } "s3"

def chainS3 : Node := { name := "s3", execute := dummyExec }

/-- The machine of `test_chain_case`: s1 → s2 → s3, terminal set s3. -/
def chainMachine : Machine :=
  { name := "exe", rootName := "s1", nodes := [chainS1, chainS2, chainS3],
    end_state_ids := ["s3"] }

/-- The chain machine right after s1's execution thread finished. -/
def chainM1 : Machine := (chainMachine.start none).finishCurr

theorem machine_is_end_iff_witness :
    ((chainM1.is_end = true ↔
        (runChild chainS1 none).name ∈ chainM1.end_state_ids ∧
          (runChild chainS1 none).status ≠ .RUNNING)
      ∧ (chainM1.update ⟨[]⟩).is_end = false) :=
  machine_is_end_iff_terminal_and_finished chainM1 ⟨[]⟩ (runChild chainS1 none)
    chainS2 "s2" none (by rfl) (by decide) (by rfl) (by rfl)

/-- C4: if a transition predicate of the machine's current node raises a
fault while that node is still `RUNNING`, one scheduler tick leaves that
node `INTERRUPTED` with its thread joined, makes the machine `EXCEPTION`
with the fault recorded and attributed to the current node, stops the tick
loop, and leaves every other node of the graph untouched — in particular
the transition's target is never started. -/
theorem machine_fault_in_transition_interrupts_source (m : Machine) (b : Board)
    (curr : Node) (e : String) (tgtName : String)
    (hcur : getNode m.nodes m.currStateName = some curr)
    (hrun : curr.status = .RUNNING)
    (htick : curr.tick b = .fault e)
    (hne : tgtName ≠ m.currStateName) :
    (m.update b).status = .EXCEPTION
      ∧ (m.update b).internalException = some e
      ∧ (m.update b).exceptionRaisedStateName = qualifyName m.name curr.name
      ∧ (m.update b).threadAlive = false
      ∧ getNode (m.update b).nodes m.currStateName = some curr.interrupt
      ∧ curr.interrupt.status = .INTERRUPTED
      ∧ curr.interrupt.threadAlive = false
      ∧ getNode (m.update b).nodes tgtName = getNode m.nodes tgtName := by
  have hexc : ¬ curr.status = .EXCEPTION := by simp [hrun]
  have hupd : m.update b = m.handleFault curr e curr.name := by
    simp [Machine.update, hcur, hexc, htick]
  have hcurname : curr.name = m.currStateName := getNode_eq_name hcur
  have hint : curr.interrupt = { curr with status := .INTERRUPTED, threadAlive := false } := by
    simp [Node.interrupt, hrun]
  refine ⟨by simp [hupd, Machine.handleFault], by simp [hupd, Machine.handleFault],
    by simp [hupd, Machine.handleFault], by simp [hupd, Machine.handleFault], ?_, ?_, ?_, ?_⟩
  · rw [hupd]
    simp only [Machine.handleFault]
    exact getNode_setNode_self hcur (by simp [hint, hcurname])
  · simp [hint]
  · simp [hint]
  · rw [hupd]
    simp only [Machine.handleFault]
    exact getNode_setNode_other (by simp [hint, hcurname, hne.symm])

/-- A transition predicate that raises, as in the zombie-state test. -/
def faultPred : NodeSnap → Board → PredOutcome := fun _ _ => .fault "unknown"

/-- The long-running root of the zombie-state test, with a raising
transition predicate toward d2. -/
def zombieWs1 : Node :=
  Node.add_transition { name := "ws1", execute := dummyExec } faultPred "d2"

def zombieD2 : Node := { name := "d2", execute := dummyExec }

/-- The machine of `test_machine_with_exception_in_transition_with_zombie_states`. -/
def zombieMachine : Machine :=
  { name := "mac", rootName := "ws1", nodes := [zombieWs1, zombieD2],
    end_state_ids := ["is2"] }

/-- The zombie machine with ws1 started and still running. -/
def zombieM1 : Machine := zombieMachine.start none

theorem machine_fault_in_transition_witness :
    (zombieM1.update ⟨[]⟩).status = .EXCEPTION
      ∧ (zombieM1.update ⟨[]⟩).internalException = some "unknown"
      ∧ (zombieM1.update ⟨[]⟩).exceptionRaisedStateName
          = qualifyName zombieM1.name (zombieWs1.start none).name
      ∧ (zombieM1.update ⟨[]⟩).threadAlive = false
      ∧ getNode (zombieM1.update ⟨[]⟩).nodes zombieM1.currStateName
          = some (zombieWs1.start none).interrupt
      ∧ (zombieWs1.start none).interrupt.status = .INTERRUPTED
      ∧ (zombieWs1.start none).interrupt.threadAlive = false
      ∧ getNode (zombieM1.update ⟨[]⟩).nodes "d2" = getNode zombieM1.nodes "d2" :=
  machine_fault_in_transition_interrupts_source zombieM1 ⟨[]⟩
    (zombieWs1.start none) "unknown" "d2" (by rfl) (by rfl) (by rfl) (by decide)

/-- C7: an on-complete transition fires exactly when the source's status is
`SUCCESS` or `FAILED` — never on `EXCEPTION` or `INTERRUPTED` (the table
holds there instead) — and a body that returns normally without an explicit
status leaves the node `SUCCESS`. -/
theorem on_complete_fires_iff_success_or_failed (s : NodeSnap) (b : Board)
    (tgt : String) :
    (evalTransitions s b [⟨onCompletePred, tgt⟩] = .goto tgt s.flow_out
        ↔ s.status = .SUCCESS ∨ s.status = .FAILED)
      ∧ (evalTransitions s b [⟨onCompletePred, tgt⟩] = .hold
        ↔ s.status ≠ .SUCCESS ∧ s.status ≠ .FAILED)
      ∧ (∀ (n : Node) (fo : Option String),
          n.execute n.flow_in = .ret none fo → n.finishExec.status = .SUCCESS) := by
  refine ⟨?_, ?_, ?_⟩
  · cases hs : s.status <;> simp [evalTransitions, onCompletePred, hs]
  · cases hs : s.status <;> simp [evalTransitions, onCompletePred, hs]
  · intro n fo hret
    simp [Node.finishExec, hret, statusOfReturn]

/-- A body that prints and returns no explicit status, as `NothingState` in
`test_transition_on_complete`. -/
def nothingExec : Option String → ExecOutcome := fun _ => .ret none none

def nothingNode : Node := { name := "ns", execute := nothingExec }

theorem on_complete_fires_witness :
    (evalTransitions ⟨"ns", .INTERRUPTED, none, none⟩ ⟨[]⟩
        [⟨onCompletePred, "ds2"⟩] = .hold
      ↔ StateStatus.INTERRUPTED ≠ .SUCCESS ∧ StateStatus.INTERRUPTED ≠ .FAILED)
      ∧ nothingNode.finishExec.status = .SUCCESS :=
  ⟨(on_complete_fires_iff_success_or_failed ⟨"ns", .INTERRUPTED, none, none⟩
      ⟨[]⟩ "ds2").2.1,
   (on_complete_fires_iff_success_or_failed ⟨"ns", .INTERRUPTED, none, none⟩
      ⟨[]⟩ "ds2").2.2 nothingNode none rfl⟩

/-- C3: fault attribution — a fault raised by a body leaves the node
`EXCEPTION` holding the fault unchanged with its own name as origin; an
enclosing machine or sequential composite that observes a child `EXCEPTION`
becomes `EXCEPTION` itself without rethrowing, keeps the fault unchanged,
and prefixes its own name plus a dot to the recorded origin path; a fault
raised while evaluating a transition predicate likewise makes the machine
`EXCEPTION` with the fault unchanged and the origin recorded as the
machine's name, a dot, and the name of the node whose transition was being
evaluated; iterating the prefixing step through any chain of enclosing
containers yields exactly the full dotted path from the outermost container
to the originating leaf. -/
theorem fault_attribution_dotted_path :
    (∀ (n : Node) (e : String), n.execute n.flow_in = .fault e →
        n.finishExec.status = .EXCEPTION
          ∧ n.finishExec.internalException = some e
          ∧ n.finishExec.exceptionRaisedStateName = n.name)
      ∧ (∀ (m : Machine) (b : Board) (curr : Node) (e : String) (p : String),
          getNode m.nodes m.currStateName = some curr →
          curr.status = .EXCEPTION →
          curr.internalException = some e →
          curr.exceptionRaisedStateName = p →
            (m.update b).status = .EXCEPTION
              ∧ (m.update b).internalException = some e
              ∧ (m.update b).exceptionRaisedStateName = qualifyName m.name p)
      ∧ (∀ (m : Machine) (b : Board) (curr : Node) (e : String),
          getNode m.nodes m.currStateName = some curr →
          curr.status ≠ .EXCEPTION →
          curr.tick b = .fault e →
            (m.update b).status = .EXCEPTION
              ∧ (m.update b).internalException = some e
              ∧ (m.update b).exceptionRaisedStateName
                  = qualifyName m.name curr.name)
      ∧ (∀ (s : SeqState) (flow : Option String) (e : String) (p : String),
          (seqExecLoop flow (s.children.map resetChild)).exc = some (e, p) →
            (s.execute flow).status = .EXCEPTION
              ∧ (s.execute flow).internalException = some e
              ∧ (s.execute flow).exceptionRaisedStateName = qualifyName s.name p)
      ∧ (∀ (names : List String) (e leaf : String),
          propagateThrough names ⟨e, leaf⟩ = ⟨e, dottedPath names leaf⟩) := by
  refine ⟨?_, ?_, ?_, ?_, ?_⟩
  · intro n e hret
    simp [Node.finishExec, hret]
  · intro m b curr e p hcur hst he hp
    simp [Machine.update, hcur, hst, Machine.handleFault, he, hp]
  · intro m b curr e hcur hexc htick
    simp [Machine.update, hcur, hexc, htick, Machine.handleFault]
  · intro s flow e p hexc
    simp only [SeqState.execute]
    rw [hexc]
    simp
  · intro names e leaf
    induction names with
    | nil => simp [propagateThrough, dottedPath]
    | cons n ns ih =>
        simp [propagateThrough, dottedPath, propagateExc, qualifyName] at ih ⊢
        simp [ih, qualifyName]

/-- The raising leaf of `test_machine_with_exception`. -/
def raiseExec : Option String → ExecOutcome := fun _ => .fault "raiseException"

def re1Node : Node := { name := "re1", execute := raiseExec }

/-- The machine `mac` of `test_machine_with_exception`, reduced to its
raising leaf. -/
def macMachine : Machine :=
  { name := "mac", rootName := "re1", nodes := [re1Node],
    end_state_ids := ["ps2"] }

/-- The `mac` machine with re1 finished (in `EXCEPTION`). -/
def macM1 : Machine := (macMachine.start none).finishCurr

theorem fault_attribution_witness :
    ((macM1.update ⟨[]⟩).status = .EXCEPTION
        ∧ (macM1.update ⟨[]⟩).internalException = some "raiseException"
        ∧ (macM1.update ⟨[]⟩).exceptionRaisedStateName
            = qualifyName macM1.name "re1")
      ∧ ((zombieM1.update ⟨[]⟩).status = .EXCEPTION
        ∧ (zombieM1.update ⟨[]⟩).internalException = some "unknown"
        ∧ (zombieM1.update ⟨[]⟩).exceptionRaisedStateName
            = qualifyName zombieM1.name (zombieWs1.start none).name)
      ∧ propagateThrough ["xe", "sm"] ⟨"IndexErrorInTestEXCEPTION", "rs1"⟩
          = ⟨"IndexErrorInTestEXCEPTION", dottedPath ["xe", "sm"] "rs1"⟩
      ∧ qualifyName macM1.name "re1" = "mac.re1"
      ∧ dottedPath ["xe", "sm"] "rs1" = "xe.sm.rs1" :=
  ⟨fault_attribution_dotted_path.2.1 macM1 ⟨[]⟩ (runChild re1Node none)
      "raiseException" "re1" (by rfl) (by rfl) (by rfl) (by rfl),
   fault_attribution_dotted_path.2.2.1 zombieM1 ⟨[]⟩ (zombieWs1.start none)
      "unknown" (by rfl) (by decide) (by rfl),
   fault_attribution_dotted_path.2.2.2.2 ["xe", "sm"]
      "IndexErrorInTestEXCEPTION" "rs1",
   by decide, by decide⟩

mutual

theorem interruptT_allDead_aux : ∀ (t : NTree),
    t.wfLive = true → t.interruptT.allDead = true
  | .node st alive act cs => by
      intro h
      by_cases hst : st = StateStatus.RUNNING
      · cases act with
        | none =>
            have hcs : allDeadList cs = true := by
              simpa [NTree.wfLive, hst] using h
            simpa [NTree.interruptT, hst, NTree.allDead] using hcs
        | some k =>
            have hcs : wfAt cs k = true := by
              simpa [NTree.wfLive, hst] using h
            have hrec := interruptNth_allDead_aux cs k hcs
            simpa [NTree.interruptT, hst, NTree.allDead] using hrec
      · have h' : (!alive && allDeadList cs) = true := by
          simpa [NTree.wfLive, hst] using h
        simpa [NTree.interruptT, hst, NTree.allDead] using h'

theorem interruptNth_allDead_aux : ∀ (cs : List NTree) (k : Nat),
    wfAt cs k = true → allDeadList (interruptNth cs k) = true
  | [], _ => by intro h; simp [interruptNth, allDeadList]
  | c :: cs, 0 => by
      intro h
      have h1 : c.wfLive = true := by
        have := h
        simp [wfAt, Bool.and_eq_true] at this
        exact this.1
      have h2 : allDeadList cs = true := by
        have := h
        simp [wfAt, Bool.and_eq_true] at this
        exact this.2
      have hrec := interruptT_allDead_aux c h1
      simp [interruptNth, allDeadList, hrec, h2]
  | c :: cs, k+1 => by
      intro h
      have h1 : c.allDead = true := by
        have := h
        simp [wfAt, Bool.and_eq_true] at this
        exact this.1
      have h2 : wfAt cs k = true := by
        have := h
        simp [wfAt, Bool.and_eq_true] at this
        exact this.2
      have hrec := interruptNth_allDead_aux cs k h2
      simp [interruptNth, allDeadList, h1, hrec]

end

/-- C2: on any thread-ownership tree satisfying the engine's liveness
invariant (live threads exist only along the chain of active children of
running nodes — the invariant the one-level-at-a-time start/join discipline
maintains), `interrupt()` leaves no live thread anywhere in the subtree: it
joins the interrupted node's own thread and, recursively through each
level's active child, every descendant's; a running root comes out
`INTERRUPTED`. -/
theorem interrupt_joins_all_threads (t : NTree) (h : t.wfLive = true) :
    t.interruptT.allDead = true
      ∧ (t.statusOf = .RUNNING → t.interruptT.statusOf = .INTERRUPTED) := by
  refine ⟨interruptT_allDead_aux t h, ?_⟩
  intro hrun
  cases t with
  | node st alive act cs =>
      have hst : st = .RUNNING := hrun
      simp [NTree.interruptT, hst, NTree.statusOf]

/-- The thread tree of `test_interruption_in_sequential_state` at the
moment of the interrupt: the composite is running with its own execution
thread alive, ws1 has finished (thread joined), ws2 is the active child
with a live thread, ps1 was never started. -/
def interSeqTree : NTree :=
  .node .RUNNING true (some 1)
    [.node .SUCCESS false none [], .node .RUNNING true none [],
     .node .NOT_RUNNING false none []]

theorem interrupt_joins_all_threads_witness :
    interSeqTree.interruptT.allDead = true
      ∧ (interSeqTree.statusOf = .RUNNING →
          interSeqTree.interruptT.statusOf = .INTERRUPTED) :=
  interrupt_joins_all_threads interSeqTree (by decide)

theorem evalTransitions_all_false (s : NodeSnap) (b : Board)
    (ts : List Transition) (h : ∀ t ∈ ts, t.pred s b = .ok false) :
    evalTransitions s b ts = .hold := by
  induction ts with
  | nil => rfl
  | cons t ts ih =>
      have ht := h t (by simp)
      have hrest : ∀ u ∈ ts, u.pred s b = .ok false :=
        fun u hu => h u (by simp [hu])
      simp [evalTransitions, ht, ih hrest]

/-- C10 (amended): a sequential composite that has been started in
thread-backed mode and is still `RUNNING`, and none of whose transition
predicates holds at this tick (in particular one with no transitions at
all), is returned unchanged by `tick(board)`: the status-read tick leaves
it as the current node. (Unamended, the claim is false: transition tables
are evaluated on every tick even while the composite is running, so a
holding predicate redirects past it — see the counterexample.) -/
theorem seq_tick_running_returns_self (s : SeqState) (b : Board)
    (hrun : s.status = .RUNNING)
    (halive : s.threadAlive = true)
    (hpreds : ∀ t ∈ s.transitions, t.pred s.snap b = .ok false) :
    s.tick b = .hold ∧ s.tickNext b = s.name := by
  have h1 : s.tick b = .hold := by
    simpa [SeqState.tick] using evalTransitions_all_false s.snap b s.transitions hpreds
  exact ⟨h1, by simp [SeqState.tickNext, h1]⟩

/-- The composite of `test_sequential_state_tick_race_condition`: a single
wait-like child and no transitions. -/
def raceBase : SeqState :=
  { name := "seq", children := [{ name := "w1", execute := dummyExec }] }

/-- The race-test composite just after `start(None, None)`. -/
def raceMid : SeqState := (raceBase.midRun none 0).getD raceBase

theorem seq_tick_running_witness :
    raceMid.tick ⟨[]⟩ = .hold ∧ raceMid.tickNext ⟨[]⟩ = raceMid.name :=
  seq_tick_running_returns_self raceMid ⟨[]⟩ (by rfl) (by rfl)
    (by
      intro t ht
      rw [show raceMid.transitions = [] from rfl] at ht
      exact absurd ht (List.not_mem_nil t))

/-- A transition predicate that holds unconditionally, like the
curr-child inspection in
`test_interruption_in_machines_with_sequential_state`. -/
def truePred : NodeSnap → Board → PredOutcome := fun _ _ => .ok true

/-- A running composite carrying a preemptive transition toward iss. -/
def preemptBase : SeqState :=
  { name := "sm", children := [{ name := "ws2", execute := dummyExec }],
    transitions := [⟨truePred, "iss"⟩] }

def preemptMid : SeqState := (preemptBase.midRun none 0).getD preemptBase

/-- C10 counterexample: a started, still-`RUNNING` sequential composite
whose transition predicate holds is NOT returned by tick — the tick
advances to the transition's target instead. -/
theorem seq_tick_running_counterexample :
    preemptMid.status = .RUNNING
      ∧ preemptMid.threadAlive = true
      ∧ preemptMid.tickNext ⟨[]⟩ = "iss"
      ∧ preemptMid.name = "sm"
      ∧ ("iss" : String) ≠ "sm" :=
  ⟨rfl, rfl, rfl, rfl, by decide⟩

/-- The flow value handed to child `k` of the loop: the flow is threaded
through the preceding children, each of which must succeed for the run to
reach child `k`. -/
def seqFlowAt (flow : Option String) : Nat → List Node → Option (Option String)
  | _, [] => none
  | 0, _ :: _ => some flow
  | k+1, c :: cs =>
      let c' := runChild c flow
      if c'.status = .SUCCESS then seqFlowAt c'.flow_out k cs else none

theorem runChild_flow_in (c : Node) (f : Option String) :
    (runChild c f).flow_in = f := by
  unfold runChild Node.finishExec
  cases h : (c.start f).execute (c.start f).flow_in <;> simp [Node.start, h]

theorem seqExecLoop_failed_aux (cs : List Node) :
    ∀ (k : Nat) (flow f : Option String) (c : Node),
      seqFlowAt flow k cs = some f → cs[k]? = some c →
      (runChild c f).status = .FAILED →
      (seqExecLoop flow cs).status = .FAILED
        ∧ (seqExecLoop flow cs).flow = f
        ∧ (seqExecLoop flow cs).exc = none
        ∧ ∀ j, k < j → (seqExecLoop flow cs).children[j]? = cs[j]? := by
  induction cs with
  | nil => intro k flow f c hf; simp [seqFlowAt] at hf
  | cons c0 rest ih =>
      intro k flow f c hf hc hfail
      cases k with
      | zero =>
          have hfeq : flow = f := by simpa [seqFlowAt] using hf
          have hceq : c0 = c := by simpa using hc
          subst hfeq; subst hceq
          have hns : ¬ (runChild c0 flow).status = .SUCCESS := by simp [hfail]
          refine ⟨?_, ?_, ?_, ?_⟩
          · simp [seqExecLoop, hns, hfail]
          · simp [seqExecLoop, hns, hfail]
          · simp [seqExecLoop, hns, hfail]
          · intro j hj
            cases j with
            | zero => omega
            | succ j' => simp [seqExecLoop, hns, hfail]
      | succ k' =>
          by_cases hs : (runChild c0 flow).status = .SUCCESS
          · have hf' : seqFlowAt (runChild c0 flow).flow_out k' rest = some f := by
              simpa [seqFlowAt, hs] using hf
            have hc' : rest[k']? = some c := by simpa using hc
            obtain ⟨h1, h2, h3, h4⟩ := ih k' (runChild c0 flow).flow_out f c hf' hc' hfail
            refine ⟨by simp [seqExecLoop, hs, h1], by simp [seqExecLoop, hs, h2],
              by simp [seqExecLoop, hs, h3], ?_⟩
            intro j hj
            cases j with
            | zero => omega
            | succ j' =>
                simp only [seqExecLoop, hs, if_true, List.getElem?_cons_succ]
                exact h4 j' (by omega)
          · simp [seqFlowAt, hs] at hf

/-- C5 (amended): when a child of a sequential composite reports `FAILED`,
the composite immediately reports `FAILED` without starting any of the
remaining children (they stay `NOT_RUNNING`), and the composite's flow-out
equals the flow value handed to the failed child as its flow-in — that is,
the last successful child's flow-out (or the composite's own flow-in when
no child succeeded) — not the failed child's flow-out. -/
theorem seq_failed_short_circuit (s : SeqState) (flow f : Option String)
    (k : Nat) (c : Node)
    (hf : seqFlowAt flow k (s.children.map resetChild) = some f)
    (hc : (s.children.map resetChild)[k]? = some c)
    (hfail : (runChild c f).status = .FAILED) :
    (s.execute flow).status = .FAILED
      ∧ (s.execute flow).flow_out = f
      ∧ (runChild c f).flow_in = f
      ∧ ∀ j, k < j →
          ((s.execute flow).children[j]?).map Node.status
            = (s.children[j]?).map (fun _ => StateStatus.NOT_RUNNING) := by
  obtain ⟨h1, h2, h3, h4⟩ :=
    seqExecLoop_failed_aux (s.children.map resetChild) k flow f c hf hc hfail
  have hexec : s.execute flow =
      { s with children := (seqExecLoop flow (s.children.map resetChild)).children,
               status := (seqExecLoop flow (s.children.map resetChild)).status,
               flow_in := flow,
               flow_out := (seqExecLoop flow (s.children.map resetChild)).flow,
               internalException := none, exceptionRaisedStateName := "",
               threadAlive := false } := by
    simp only [SeqState.execute]
    rw [h3]
  refine ⟨by simp [hexec, h1], by simp [hexec, h2], runChild_flow_in c f, ?_⟩
  intro j hj
  have hcj := h4 j hj
  rw [hexec]
  simp only
  rw [hcj, List.getElem?_map]
  cases s.children[j]? <;> simp [resetChild]

/-- A body that succeeds and writes the given flow-out, like
`SetFlowState`. -/
def setFlowExec (v : String) : Option String → ExecOutcome :=
  fun _ => .ret (some .SUCCESS) (some v)

/-- The failing body of `test_sequence_state_flow`: it writes its own
flow-out and reports `FAILED`. -/
def failFlowExec : Option String → ExecOutcome :=
  fun _ => .ret (some .FAILED) (some "Failed")

def selFirst : Node := { name := "first", execute := setFlowExec "firstState" }

def selF1 : Node := { name := "f1", execute := failFlowExec }

def selSecond : Node := { name := "second", execute := setFlowExec "secondState" }

/-- The selector composite of `test_sequence_state_flow`. -/
def selectorSeq : SeqState :=
  { name := "selector", children := [selFirst, selF1, selSecond] }

/-- C5 counterexample: in the `test_sequence_state_flow` scenario the
composite fails at f1, whose own flow-out is "Failed", yet the composite's
flow-out is "firstState" — the failed child's flow-out is NOT the
composite's flow-out, contradicting the claim as stated. -/
theorem seq_failed_flow_counterexample :
    (selectorSeq.execute none).status = .FAILED
      ∧ ((selectorSeq.execute none).children[1]?).map Node.flow_out
          = some (some "Failed")
      ∧ (selectorSeq.execute none).flow_out = some "firstState"
      ∧ (some "firstState" : Option String) ≠ some "Failed" :=
  ⟨rfl, rfl, rfl, by decide⟩

theorem seq_failed_short_circuit_witness :
    (selectorSeq.execute none).status = .FAILED
      ∧ (selectorSeq.execute none).flow_out = some "firstState"
      ∧ (runChild selF1 (some "firstState")).flow_in = some "firstState"
      ∧ ((selectorSeq.execute none).children[2]?).map Node.status
          = (selectorSeq.children[2]?).map (fun _ => StateStatus.NOT_RUNNING) :=
  have h := seq_failed_short_circuit selectorSeq none (some "firstState") 1
    selF1 rfl rfl rfl
  ⟨h.1, h.2.1, h.2.2.1, h.2.2.2 2 (by decide)⟩

theorem seqExecLoop_children_head (flow : Option String) (c : Node)
    (cs : List Node) :
    (seqExecLoop flow (c :: cs)).children.head? = some (runChild c flow) := by
  by_cases h1 : (runChild c flow).status = .SUCCESS
  · simp [seqExecLoop, h1]
  · by_cases h2 : (runChild c flow).status = .FAILED
    · simp [seqExecLoop, h1, h2]
    · by_cases h3 : (runChild c flow).status = .EXCEPTION
      · simp [seqExecLoop, h1, h2, h3]
      · simp [seqExecLoop, h1, h2, h3]

theorem execute_children (s : SeqState) (flow : Option String) :
    (s.execute flow).children
      = (seqExecLoop flow (s.children.map resetChild)).children := by
  simp only [SeqState.execute]
  cases hsc : (seqExecLoop flow (s.children.map resetChild)).exc with
  | none => simp
  | some p => obtain ⟨e, nm⟩ := p; simp

theorem seqExecLoop_chain (cs : List Node) :
    ∀ (flow : Option String) (j : Nat) (c d : Node),
      (∀ x ∈ cs, x.status = .NOT_RUNNING) →
      (seqExecLoop flow cs).children[j]? = some c →
      (seqExecLoop flow cs).children[j+1]? = some d →
      d.status ≠ .NOT_RUNNING →
      d.flow_in = c.flow_out := by
  induction cs with
  | nil => intro flow j c d hreset hc; simp [seqExecLoop] at hc
  | cons c0 rest ih =>
      intro flow j c d hreset hc hd hstat
      have hrest : ∀ x ∈ rest, x.status = .NOT_RUNNING :=
        fun x hx => hreset x (by simp [hx])
      by_cases hs : (runChild c0 flow).status = .SUCCESS
      · cases j with
        | zero =>
            have hceq : c = runChild c0 flow := by
              simpa [seqExecLoop, hs] using hc.symm
            cases rest with
            | nil => simp [seqExecLoop, hs] at hd
            | cons c1 r2 =>
                have hdeq : d = runChild c1 (runChild c0 flow).flow_out := by
                  have hh := seqExecLoop_children_head
                    (runChild c0 flow).flow_out c1 r2
                  have hd' : (seqExecLoop (runChild c0 flow).flow_out
                      (c1 :: r2)).children[0]? = some d := by
                    simpa [seqExecLoop, hs] using hd
                  rw [← List.head?_eq_getElem?] at hd'
                  rw [hh] at hd'
                  exact (Option.some.injEq _ _).mp hd'.symm
                rw [hdeq, hceq, runChild_flow_in]
        | succ j' =>
            have hc' : (seqExecLoop (runChild c0 flow).flow_out rest).children[j']?
                = some c := by simpa [seqExecLoop, hs] using hc
            have hd' : (seqExecLoop (runChild c0 flow).flow_out rest).children[j'+1]?
                = some d := by simpa [seqExecLoop, hs] using hd
            exact ih (runChild c0 flow).flow_out j' c d hrest hc' hd' hstat
      · have hchildren : (seqExecLoop flow (c0 :: rest)).children
            = runChild c0 flow :: rest := by
          by_cases h2 : (runChild c0 flow).status = .FAILED
          · simp [seqExecLoop, hs, h2]
          · by_cases h3 : (runChild c0 flow).status = .EXCEPTION
            · simp [seqExecLoop, hs, h2, h3]
            · simp [seqExecLoop, hs, h2, h3]
        rw [hchildren] at hd
        have hdmem : d ∈ rest := by
          cases j with
          | zero =>
              have : rest[0]? = some d := by simpa using hd
              exact List.getElem?_mem this
          | succ j' =>
              have : rest[j'+1]? = some d := by simpa using hd
              exact List.getElem?_mem this
        exact absurd (hrest d hdmem) hstat

theorem evalTransitions_goto_flow (s : NodeSnap) (b : Board) :
    ∀ (ts : List Transition) (tgt : String) (fl : Option String),
      evalTransitions s b ts = .goto tgt fl → fl = s.flow_out := by
  intro ts
  induction ts with
  | nil => intro tgt fl h; simp [evalTransitions] at h
  | cons t ts ih =>
      intro tgt fl h
      cases hp : t.pred s b with
      | fault e => rw [evalTransitions, hp] at h; cases h
      | ok bv =>
          cases bv with
          | true =>
              rw [evalTransitions, hp] at h
              cases h
              rfl
          | false =>
              rw [evalTransitions, hp] at h
              exact ih tgt fl h

/-- C6: flow handoff along the execution chain — the machine's own flow-in
becomes the root node's flow-in at `start`; child 0 of a sequential
composite runs with flow-in equal to the composite's own flow-in; every
later child that actually ran has flow-in equal to its predecessor's
flow-out (so a predecessor that set no flow-out hands over nothing); and a
machine transition always hands the source's flow-out — whatever it is,
including unset — to the started target as its flow-in. -/
theorem flow_handoff_chain :
    (∀ (m : Machine) (f : Option String) (root : Node),
        getNode m.nodes m.rootName = some root →
          getNode (m.start f).nodes m.rootName = some (root.start f)
            ∧ (root.start f).flow_in = f)
      ∧ (∀ (s : SeqState) (flow : Option String) (c : Node) (rest : List Node),
          s.children = c :: rest →
            (s.execute flow).children.head? = some (runChild (resetChild c) flow)
              ∧ (runChild (resetChild c) flow).flow_in = flow)
      ∧ (∀ (s : SeqState) (flow : Option String) (j : Nat) (c d : Node),
          (s.execute flow).children[j]? = some c →
          (s.execute flow).children[j+1]? = some d →
          d.status ≠ .NOT_RUNNING →
          d.flow_in = c.flow_out)
      ∧ (∀ (sn : NodeSnap) (b : Board) (ts : List Transition) (tgt : String)
            (fl : Option String) (n : Node),
          evalTransitions sn b ts = .goto tgt fl →
            (n.start fl).flow_in = sn.flow_out) := by
  refine ⟨?_, ?_, ?_, ?_⟩
  · intro m f root hroot
    constructor
    · simp only [Machine.start, hroot]
      exact getNode_setNode_self hroot (by simp [Node.start, getNode_eq_name hroot])
    · simp [Node.start]
  · intro s flow c rest hch
    constructor
    · rw [execute_children, hch]
      simpa using seqExecLoop_children_head flow (resetChild c)
        (rest.map resetChild)
    · exact runChild_flow_in _ _
  · intro s flow j c d hc hd hstat
    rw [execute_children] at hc hd
    refine seqExecLoop_chain (s.children.map resetChild) flow j c d ?_ hc hd hstat
    intro x hx
    obtain ⟨y, _, hy⟩ := List.mem_map.mp hx
    rw [← hy]
    rfl
  · intro sn b ts tgt fl n h
    have := evalTransitions_goto_flow sn b ts tgt fl h
    simp [Node.start, this]

theorem flow_handoff_chain_witness :
    ((selectorSeq.execute none).children.head?
        = some (runChild (resetChild selFirst) none)
      ∧ (runChild (resetChild selFirst) none).flow_in = none)
      ∧ (runChild selF1 (some "firstState")).flow_in
          = (runChild selFirst none).flow_out :=
  ⟨flow_handoff_chain.2.1 selectorSeq none selFirst [selF1, selSecond] rfl,
   flow_handoff_chain.2.2.1 selectorSeq none 0 (runChild selFirst none)
     (runChild selF1 (some "firstState")) rfl rfl (by decide)⟩

theorem seqRunUpto_facts (cs : List Node) :
    ∀ (k : Nat) (flow : Option String) (cs' : List Node),
      seqRunUpto flow k cs = some cs' →
        (∀ j, k < j → cs'[j]? = cs[j]?)
          ∧ (cs'[k]?).map Node.status = some .RUNNING
          ∧ (∀ j, j < k → (cs'[j]?).map Node.status = some .SUCCESS) := by
  induction cs with
  | nil => intro k flow cs' h; simp [seqRunUpto] at h
  | cons c0 rest ih =>
      intro k flow cs' h
      cases k with
      | zero =>
          have h' : (c0.start flow) :: rest = cs' := by
            simpa [seqRunUpto] using h
          subst h'
          refine ⟨?_, by simp [Node.start], ?_⟩
          · intro j hj
            cases j with
            | zero => omega
            | succ j' => simp
          · intro j hj; omega
      | succ k' =>
          by_cases hs : (runChild c0 flow).status = .SUCCESS
          · simp only [seqRunUpto, hs, if_true] at h
            obtain ⟨tl, htl, hcons⟩ := Option.map_eq_some'.mp h
            subst hcons
            obtain ⟨f1, f2, f3⟩ := ih k' (runChild c0 flow).flow_out tl htl
            refine ⟨?_, by simpa using f2, ?_⟩
            · intro j hj
              cases j with
              | zero => omega
              | succ j' =>
                  simp only [List.getElem?_cons_succ]
                  exact f1 j' (by omega)
            · intro j hj
              cases j with
              | zero => simp [hs]
              | succ j' =>
                  simp only [List.getElem?_cons_succ]
                  exact f3 j' (by omega)
          · simp [seqRunUpto, hs] at h

theorem interruptChild_frame (cs : List Node) :
    ∀ (k j : Nat), j ≠ k → (interruptChild cs k)[j]? = cs[j]? := by
  induction cs with
  | nil => intro k j hj; simp [interruptChild]
  | cons c rest ih =>
      intro k j hj
      cases k with
      | zero =>
          cases j with
          | zero => omega
          | succ j' => simp [interruptChild]
      | succ k' =>
          cases j with
          | zero => simp [interruptChild]
          | succ j' =>
              simp only [interruptChild, List.getElem?_cons_succ]
              exact ih k' j' (by omega)

theorem interruptChild_at (cs : List Node) :
    ∀ (k : Nat), (interruptChild cs k)[k]? = (cs[k]?).map Node.interrupt := by
  induction cs with
  | nil => intro k; simp [interruptChild]
  | cons c rest ih =>
      intro k
      cases k with
      | zero => simp [interruptChild]
      | succ k' =>
          simp only [interruptChild, List.getElem?_cons_succ]
          exact ih k'

/-- C8: interrupting a running sequential composite whose active child is
child `k` changes the status of exactly two nodes — the active child
(`RUNNING` → `INTERRUPTED`) and the composite itself (→ `INTERRUPTED`, its
thread joined): every other child record is untouched, children after the
cursor are still `NOT_RUNNING` (never started) and children before it keep
their finished `SUCCESS` status; and `interrupt()` on a composite that is
not running is a safe no-op. -/
theorem seq_interrupt_only_active_child (s : SeqState) (flow : Option String)
    (k : Nat) (mid : SeqState) (hmid : s.midRun flow k = some mid) :
    mid.interrupt.status = .INTERRUPTED
      ∧ mid.interrupt.threadAlive = false
      ∧ (mid.interrupt.children[k]?).map Node.status = some .INTERRUPTED
      ∧ (∀ j, j ≠ k → mid.interrupt.children[j]? = mid.children[j]?)
      ∧ (∀ j, k < j → (mid.interrupt.children[j]?).map Node.status
            = (s.children[j]?).map (fun _ => StateStatus.NOT_RUNNING))
      ∧ (∀ j, j < k → (mid.interrupt.children[j]?).map Node.status
            = some .SUCCESS)
      ∧ (∀ t : SeqState, t.status ≠ .RUNNING → t.interrupt = t) := by
  obtain ⟨cs', hup, hrec⟩ := Option.map_eq_some'.mp hmid
  obtain ⟨f1, f2, f3⟩ := seqRunUpto_facts (s.children.map resetChild) k flow cs' hup
  have hmidfields : mid.status = .RUNNING ∧ mid.currChildIdx = some k
      ∧ mid.children = cs' := by
    rw [← hrec]; exact ⟨rfl, rfl, rfl⟩
  obtain ⟨hst, hidx, hch⟩ := hmidfields
  have hint : mid.interrupt =
      { mid with children := interruptChild mid.children k,
                 status := .INTERRUPTED, threadAlive := false } := by
    simp [SeqState.interrupt, hst, hidx]
  refine ⟨by simp [hint], by simp [hint], ?_, ?_, ?_, ?_, ?_⟩
  · rw [hint]
    simp only
    rw [interruptChild_at, hch]
    cases hck : cs'[k]? with
    | none => rw [hck] at f2; simp at f2
    | some c =>
        rw [hck] at f2
        have hcs : c.status = .RUNNING := by simpa using f2
        simp [Node.interrupt, hcs]
  · intro j hj
    rw [hint]
    simp only
    exact interruptChild_frame mid.children k j hj
  · intro j hj
    rw [hint]
    simp only
    rw [interruptChild_frame mid.children k j (by omega), hch, f1 j hj,
      List.getElem?_map]
    cases s.children[j]? <;> simp [resetChild]
  · intro j hj
    rw [hint]
    simp only
    rw [interruptChild_frame mid.children k j (by omega), hch]
    exact f3 j hj
  · intro t ht
    simp [SeqState.interrupt, ht]

/-- The composite of `test_interruption_in_sequential_state` (ws1, ws2,
ps1), with ws1 succeeding instantly in the model. -/
def interSeqBase : SeqState :=
  { name := "sm",
    children := [{ name := "ws1", execute := dummyExec },
                 { name := "ws2", execute := dummyExec },
                 { name := "ps1", execute := dummyExec }] }

/-- The composite mid-run, while ws2 (child 1) is the active child. -/
def interSeqMid : SeqState := (interSeqBase.midRun none 1).getD interSeqBase

theorem seq_interrupt_only_active_child_witness :
    interSeqMid.interrupt.status = .INTERRUPTED
      ∧ interSeqMid.interrupt.threadAlive = false
      ∧ (interSeqMid.interrupt.children[1]?).map Node.status
          = some .INTERRUPTED
      ∧ (interSeqMid.interrupt.children[2]?).map Node.status
          = (interSeqBase.children[2]?).map (fun _ => StateStatus.NOT_RUNNING)
      ∧ (interSeqMid.interrupt.children[0]?).map Node.status = some .SUCCESS
      ∧ interSeqBase.interrupt = interSeqBase :=
  have h := seq_interrupt_only_active_child interSeqBase none 1 interSeqMid rfl
  ⟨h.1, h.2.1, h.2.2.1, h.2.2.2.2.1 2 (by decide), h.2.2.2.2.2.1 0 (by decide),
   h.2.2.2.2.2.2 interSeqBase (by decide)⟩

/-- The behaviorally relevant identity of a node: its name and its body.
Everything the sequential loop does is determined by these plus the
incoming flow. -/
def behav (n : Node) : String × (Option String → ExecOutcome) :=
  (n.name, n.execute)

theorem runChild_behav (c : Node) (flow : Option String) :
    behav (runChild c flow) = behav c := by
  unfold behav runChild Node.finishExec
  cases hx : (Node.start c flow).execute (Node.start c flow).flow_in <;>
    simp [Node.start, hx]

theorem runChild_congr (c d : Node) (flow : Option String)
    (h : behav c = behav d) :
    (runChild c flow).status = (runChild d flow).status
      ∧ (runChild c flow).flow_out = (runChild d flow).flow_out := by
  have he : c.execute = d.execute := congrArg Prod.snd h
  unfold runChild Node.finishExec
  simp only [Node.start]
  rw [he]
  cases hx : d.execute flow <;> simp [hx]

theorem seqExecLoop_behav (cs : List Node) : ∀ (flow : Option String),
    (seqExecLoop flow cs).children.map behav = cs.map behav := by
  induction cs with
  | nil => intro flow; simp [seqExecLoop]
  | cons c rest ih =>
      intro flow
      by_cases h1 : (runChild c flow).status = .SUCCESS
      · simp [seqExecLoop, h1, runChild_behav, ih]
      · by_cases h2 : (runChild c flow).status = .FAILED
        · simp [seqExecLoop, h1, h2, runChild_behav]
        · by_cases h3 : (runChild c flow).status = .EXCEPTION
          · simp [seqExecLoop, h1, h2, h3, runChild_behav]
          · simp [seqExecLoop, h1, h2, h3, runChild_behav]

theorem seqExecLoop_congr (cs : List Node) :
    ∀ (ds : List Node) (flow : Option String),
      cs.map behav = ds.map behav →
      cs.map Node.status = ds.map Node.status →
      (seqExecLoop flow cs).status = (seqExecLoop flow ds).status
        ∧ (seqExecLoop flow cs).flow = (seqExecLoop flow ds).flow
        ∧ ((seqExecLoop flow cs).exc = none ↔ (seqExecLoop flow ds).exc = none)
        ∧ (seqExecLoop flow cs).children.map Node.status
            = (seqExecLoop flow ds).children.map Node.status := by
  induction cs with
  | nil =>
      intro ds flow hb hs
      have hds : ds = [] := by simpa using hb.symm
      subst hds
      simp
  | cons c cs' ih =>
      intro ds flow hb hs
      cases ds with
      | nil => simp at hb
      | cons d ds' =>
          simp only [List.map_cons, List.cons.injEq] at hb hs
          obtain ⟨hbc, hbt⟩ := hb
          obtain ⟨hsc, hst⟩ := hs
          obtain ⟨rs, rf⟩ := runChild_congr c d flow hbc
          by_cases h1 : (runChild c flow).status = .SUCCESS
          · have h1d : (runChild d flow).status = .SUCCESS := by
              rw [← rs]; exact h1
            obtain ⟨g1, g2, g3, g4⟩ := ih ds' (runChild c flow).flow_out hbt hst
            have hdlp : seqExecLoop (runChild d flow).flow_out ds'
                = seqExecLoop (runChild c flow).flow_out ds' := by rw [rf]
            refine ⟨?_, ?_, ?_, ?_⟩
            · simpa [seqExecLoop, h1, h1d, hdlp] using g1
            · simpa [seqExecLoop, h1, h1d, hdlp] using g2
            · simpa [seqExecLoop, h1, h1d, hdlp] using g3
            · simpa [seqExecLoop, h1, h1d, hdlp, rs] using g4
          · have h1d : ¬ (runChild d flow).status = .SUCCESS := by
              rw [← rs]; exact h1
            by_cases h2 : (runChild c flow).status = .FAILED
            · have h2d : (runChild d flow).status = .FAILED := by
                rw [← rs]; exact h2
              refine ⟨?_, ?_, ?_, ?_⟩ <;>
                simp [seqExecLoop, h1, h1d, h2, h2d, rs, hst]
            · have h2d : ¬ (runChild d flow).status = .FAILED := by
                rw [← rs]; exact h2
              by_cases h3 : (runChild c flow).status = .EXCEPTION
              · have h3d : (runChild d flow).status = .EXCEPTION := by
                  rw [← rs]; exact h3
                refine ⟨?_, ?_, ?_, ?_⟩ <;>
                  simp [seqExecLoop, h1, h1d, h2, h2d, h3, h3d, rs, hst]
              · have h3d : ¬ (runChild d flow).status = .EXCEPTION := by
                  rw [← rs]; exact h3
                refine ⟨?_, ?_, ?_, ?_⟩ <;>
                  simp [seqExecLoop, h1, h1d, h2, h2d, h3, h3d, rs, hst]

theorem execute_flow_out (s : SeqState) (flow : Option String) :
    (s.execute flow).flow_out
      = (seqExecLoop flow (s.children.map resetChild)).flow := by
  simp only [SeqState.execute]
  cases hsc : (seqExecLoop flow (s.children.map resetChild)).exc with
  | none => simp
  | some p => obtain ⟨e, nm⟩ := p; simp

theorem execute_status_char (s : SeqState) (flow : Option String) :
    (s.execute flow).status =
      (if (seqExecLoop flow (s.children.map resetChild)).exc = none
        then (seqExecLoop flow (s.children.map resetChild)).status
        else .EXCEPTION) := by
  simp only [SeqState.execute]
  cases hsc : (seqExecLoop flow (s.children.map resetChild)).exc with
  | none => simp [hsc]
  | some p => obtain ⟨e, nm⟩ := p; simp [hsc]

theorem map_behav_reset (l : List Node) :
    (l.map resetChild).map behav = l.map behav := by
  rw [List.map_map]
  apply List.map_congr_left
  intro x _
  rfl

theorem map_status_reset (l : List Node) :
    (l.map resetChild).map Node.status
      = l.map (fun _ => StateStatus.NOT_RUNNING) := by
  rw [List.map_map]
  apply List.map_congr_left
  intro x _
  rfl

theorem map_const_eq_of_length {α β : Type} (a : β) :
    ∀ (l1 l2 : List α), l1.length = l2.length →
      l1.map (fun _ => a) = l2.map (fun _ => a) := by
  intro l1
  induction l1 with
  | nil => intro l2 h; cases l2 with | nil => rfl | cons x xs => simp at h
  | cons x xs ih =>
      intro l2 h
      cases l2 with
      | nil => simp at h
      | cons y ys =>
          simp only [List.map_cons]
          exact congrArg (List.cons a) (ih ys (by simpa using h))

theorem execute_children_behav (s : SeqState) (flow : Option String) :
    (s.execute flow).children.map behav = s.children.map behav := by
  rw [execute_children, seqExecLoop_behav, map_behav_reset]

theorem execute_head_flow_in (t : SeqState) (flow : Option String)
    (h : t.children ≠ []) :
    ((t.execute flow).children.head?).map Node.flow_in = some flow := by
  cases hch : t.children with
  | nil => exact absurd hch h
  | cons c rest =>
      rw [execute_children, hch]
      simp only [List.map_cons]
      rw [seqExecLoop_children_head]
      simp [runChild_flow_in]

/-- C9: restarting a sequential composite after a completed run is
behaviorally a fresh first run — all children are reset to `NOT_RUNNING`
before the rerun, the rerun starts again from child 0 (its flow-in is set
to the new activation's flow-in), and the rerun's resulting status,
flow-out and every child's resulting status coincide with those of a first
run on the same flow-in. -/
theorem seq_restart_is_fresh_run (s : SeqState) (f1 f2 : Option String) :
    ((s.execute f1).execute f2).status = (s.execute f2).status
      ∧ ((s.execute f1).execute f2).flow_out = (s.execute f2).flow_out
      ∧ ((s.execute f1).execute f2).children.map Node.status
          = (s.execute f2).children.map Node.status
      ∧ (∀ (c : Node) (rest : List Node), s.children = c :: rest →
          (((s.execute f1).execute f2).children.head?).map Node.flow_in
            = some f2) := by
  have hbe : ((s.execute f1).children.map resetChild).map behav
      = (s.children.map resetChild).map behav := by
    rw [map_behav_reset, map_behav_reset, execute_children_behav]
  have hlen : (s.execute f1).children.length = s.children.length := by
    have := congrArg List.length (execute_children_behav s f1)
    simpa using this
  have hstm : ((s.execute f1).children.map resetChild).map Node.status
      = (s.children.map resetChild).map Node.status := by
    rw [map_status_reset, map_status_reset]
    exact map_const_eq_of_length _ _ _ hlen
  obtain ⟨g1, g2, g3, g4⟩ :=
    seqExecLoop_congr ((s.execute f1).children.map resetChild)
      (s.children.map resetChild) f2 hbe hstm
  refine ⟨?_, ?_, ?_, ?_⟩
  · rw [execute_status_char, execute_status_char]
    by_cases hA : (seqExecLoop f2 ((s.execute f1).children.map resetChild)).exc
        = none
    · have hB := g3.mp hA
      simp [hA, hB, g1]
    · have hB : ¬ (seqExecLoop f2 (s.children.map resetChild)).exc = none :=
        fun hB0 => hA (g3.mpr hB0)
      simp [hA, hB]
  · rw [execute_flow_out, execute_flow_out]
    exact g2
  · rw [execute_children (s.execute f1) f2, execute_children s f2]
    exact g4
  · intro c rest hch
    apply execute_head_flow_in
    intro hnil
    rw [hch] at hlen
    rw [hnil] at hlen
    simp at hlen

theorem seq_restart_is_fresh_run_witness :
    ((selectorSeq.execute none).execute (some "x")).status
        = (selectorSeq.execute (some "x")).status
      ∧ ((selectorSeq.execute none).execute (some "x")).children.map Node.status
          = (selectorSeq.execute (some "x")).children.map Node.status
      ∧ (((selectorSeq.execute none).execute (some "x")).children.head?).map
            Node.flow_in = some (some "x") :=
  have h := seq_restart_is_fresh_run selectorSeq none (some "x")
  ⟨h.1, h.2.2.1, h.2.2.2 selFirst [selF1, selSecond] rfl⟩

end BehaviorMachine
